import Mathlib

/-!
Verification of the futaba journal router (`futaba/journal/router.py`) and
the SQL hook registry (`futaba/sql/hooks.py`) against their specification.

The Python code is shallowly embedded: paths become lists of segments,
the listener registry becomes a function from paths to listener lists,
and the effects of the dispatch loop (content processing, `check` calls,
`handle` invocations, error logging) are recorded as an explicit trace.
-/

set_option autoImplicit false

namespace Futaba

/-! ## Hooks (`futaba/sql/hooks.py`) -/

/-- A database-consistency hook.  `id` stands for the Python object's
identity; `fails` records whether calling the hook raises an exception. -/
structure Hook where
  id : Nat
  fails : Bool
deriving DecidableEq, Repr

/-- The fixed tuple `HOOK_NAMES` from `hooks.py`. -/
def HOOK_NAMES : List String := ["on_guild_join", "on_guild_leave"]

/-- The hook registry `_hooks`: an insertion-ordered mapping from hook name
to the list of registered hooks, embedded as an association list. -/
abbrev HookReg := List (String × List Hook)

/-- The initial registry `_hooks = {name: [] for name in HOOK_NAMES}`. -/
def initHooks : HookReg := HOOK_NAMES.map (fun n => (n, []))

/-- Dictionary lookup `_hooks[name]`; `none` embeds a `KeyError`. -/
def lookupHooks (hs : HookReg) (name : String) : Option (List Hook) :=
  match hs.find? (fun kv => kv.1 == name) with
  | some kv => some kv.2
  | none => none

/-- `register_hook(name, hook)`: checks `name in HOOK_NAMES` first and
raises `ValueError` (the returned message) without touching the registry,
otherwise appends `hook` to the bucket for `name`.  The result pairs the
registry after the call with the raised error, if any. -/
def register_hook (hs : HookReg) (name : String) (h : Hook) :
    HookReg × Option String :=
  if HOOK_NAMES.contains name then
    (hs.map (fun kv => if kv.1 == name then (kv.1, kv.2 ++ [h]) else kv), none)
  else
    (hs, some ("No such hook type: " ++ name))

/-- One observable step of `run_hooks`: a hook being invoked, or the
`logger.error` line for a hook whose call raised. -/
inductive HookEntry where
  | run (id : Nat)
  | logErr (id : Nat)
deriving DecidableEq, Repr

/-- The trace of `hook(*args)` wrapped in `try`/`except`: the hook runs,
and if it raises the error is logged and swallowed. -/
def runOne (h : Hook) : List HookEntry :=
  if h.fails then [HookEntry.run h.id, HookEntry.logErr h.id] else [HookEntry.run h.id]

/-- `run_hooks(name, ...)`: iterates over `_hooks[name]`, each call wrapped
individually; `none` embeds the `KeyError` from `_hooks[name]` itself. -/
def run_hooks (hs : HookReg) (name : String) : Option (List HookEntry) :=
  (lookupHooks hs name).map (fun l => l.flatMap runOne)

/-- Extracts the identity of a `run` entry. -/
def runId : HookEntry → Option Nat
  | HookEntry.run i => some i
  | HookEntry.logErr _ => none

/-! ## Journal router (`futaba/journal/router.py`) -/

/-- A journal path, embedded as its ordered list of segments; the root
path `/` is `[]`.  Two paths are equal iff their segment lists are. -/
abbrev Path := List String

/-- Event and static listener attributes, embedded as association lists
from attribute name to value. -/
abbrev Attrs := List (String × String)

/-- Counts down through `p.take (n-1), p.take (n-2), ..., p.take 0`. -/
def takesDesc (p : Path) : Nat → List Path
  | 0 => []
  | n + 1 => p.take n :: takesDesc p n

/-- `PurePath.parents`: the strictly shorter ancestor paths of `p`, ordered
from the immediate parent down to the root, excluding `p` itself. -/
def parents (p : Path) : List Path := takesDesc p p.length

/-- A journal listener.  `id` stands for the Python object's identity
(used by `list.remove`); `path` and `sattrs` are the registration path and
the static object attributes inspected by `attrs_match`; `checkFn` embeds
the `check` method; `handleFails` records whether awaiting the coroutine
returned by `handle` raises. -/
structure Listener where
  id : Nat
  path : Path
  sattrs : Attrs
  checkFn : Path → Nat → String → Attrs → Bool
  handleFails : Bool

/-- `getattr(obj, attr)` on the embedded attribute map, with `none` for a
missing attribute (`hasattr` false). -/
def lookupAttr (obj : Attrs) (k : String) : Option String :=
  match obj.find? (fun kv => kv.1 == k) with
  | some kv => some kv.2
  | none => none

/-- `attrs_match(obj, attrs)`: every requested attribute must exist on the
object and compare equal. -/
def attrs_match (obj : Attrs) (attrs : Attrs) : Bool :=
  attrs.all (fun kv =>
    match lookupAttr obj kv.1 with
    | some w => w == kv.2
    | none => false)

/-- The Router's listener registry `self.paths`, a `defaultdict(list)`
keyed by path: missing paths read as the empty bucket. -/
structure Router where
  paths : Path → List Listener

/-- A freshly constructed Router: every bucket empty. -/
def Router.new : Router := ⟨fun _ => []⟩

/-- `Router.get(path, **attrs)`: first listener in the bucket for exactly
`path` whose static attributes match, else `None`. -/
def Router.get (r : Router) (path : Path) (attrs : Attrs) : Option Listener :=
  (r.paths path).find? (fun l => attrs_match l.sattrs attrs)

/-- `Router.register(listener)`: appends to the bucket for `listener.path`. -/
def Router.register (r : Router) (l : Listener) : Router :=
  ⟨fun p => if p = l.path then r.paths p ++ [l] else r.paths p⟩

/-- `list.remove(x)` keyed by identity: removes the first occurrence, or
`none` (a `ValueError`) when absent. -/
def removeFirst (i : Nat) : List Listener → Option (List Listener)
  | [] => none
  | x :: xs =>
      if x.id = i then some xs
      else (removeFirst i xs).map (fun ys => x :: ys)

/-- `Router.unregister(listener)`: removes the listener's first occurrence
from the bucket for `listener.path`; `none` embeds the `ValueError` raised
when it is absent (the registry is then left untouched). -/
def Router.unregister (r : Router) (l : Listener) : Option Router :=
  match removeFirst l.id (r.paths l.path) with
  | some b => some ⟨fun p => if p = l.path then b else r.paths p⟩
  | none => none

/-- An event dequeued by `handle_events`: `(event_path, guild, content,
attributes)`, with the guild embedded as an identity. -/
structure Event where
  path : Path
  guild : Nat
  content : String
  attributes : Attrs

/-- One observable step of the dispatch loop: the single
`process_content` call, a `check` call with its arguments and result, the
body of a `handle` coroutine running, or the `logger.error` line of the
`except` block around `asyncio.gather`. -/
inductive TraceEntry where
  | process (raw : String) (result : String)
  | checkCall (lid : Nat) (pathArg : Path) (guild : Nat) (content : String) (result : Bool)
  | handleCall (lid : Nat) (pathArg : Path) (guild : Nat) (content : String)
  | logError
deriving DecidableEq, Repr

/-- `chain((event_path,), event_path.parents)`: the paths whose buckets
are examined for one event, most specific first. -/
def matchChain (p : Path) : List Path := p :: parents p

/-- The listeners examined for an event path, paired with the chain path
under whose bucket each was found, in examination order. -/
def candidates (r : Router) (p : Path) : List (Listener × Path) :=
  (matchChain p).flatMap (fun q => (r.paths q).map (fun l => (l, q)))

/-- The candidates whose `check(path, guild, content, attributes)` returned
true; `content` is the already-processed content.  Note the code passes the
chain path `q`, not the event path, to `check`. -/
def matchedListeners (r : Router) (e : Event) (content : String) :
    List (Listener × Path) :=
  (candidates r e.path).filter (fun lq => lq.1.checkFn lq.2 e.guild content e.attributes)

/-- One iteration of `Router.handle_events`, as its trace: process the
content once, evaluate `check` for every candidate in order, then
`asyncio.gather` runs every collected `handle(event_path, ...)` coroutine,
and the `except` block logs when any handler raised.  `proc` is the
external `process_content`. -/
def dispatchEvent (proc : String → Attrs → String) (r : Router) (e : Event) :
    List TraceEntry :=
  let content := proc e.content e.attributes
  TraceEntry.process e.content content
    :: ((candidates r e.path).map (fun lq =>
          TraceEntry.checkCall lq.1.id lq.2 e.guild content
            (lq.1.checkFn lq.2 e.guild content e.attributes))
        ++ (matchedListeners r e content).map (fun lq =>
          TraceEntry.handleCall lq.1.id e.path e.guild content)
        ++ (if (matchedListeners r e content).any (fun lq => lq.1.handleFails)
            then [TraceEntry.logError] else []))

/-- Tags every entry of a per-event trace with the event's queue index. -/
def tagged (i : Nat) (es : List TraceEntry) : List (Nat × TraceEntry) :=
  es.map (fun t => (i, t))

/-- The dispatch loop over the (FIFO) queue contents starting at index `i`:
each event is fully dispatched, then the loop moves to the next one. -/
def handleEventsFrom (proc : String → Attrs → String) (r : Router) :
    Nat → List Event → List (Nat × TraceEntry)
  | _, [] => []
  | i, e :: rest =>
      tagged i (dispatchEvent proc r e) ++ handleEventsFrom proc r (i + 1) rest

/-- `Router.handle_events` over a queue of events, with each trace entry
tagged by the index of the event it belongs to. -/
def handleEvents (proc : String → Attrs → String) (r : Router)
    (q : List Event) : List (Nat × TraceEntry) :=
  handleEventsFrom proc r 0 q

/-- Recognises a `handle` invocation of listener `i`. -/
def isHandleOf (i : Nat) : TraceEntry → Bool
  | TraceEntry.handleCall lid _ _ _ => lid == i
  | _ => false

/-- Counts the `handle` invocations of listener `i` in a trace. -/
def countHandle (i : Nat) (tr : List TraceEntry) : Nat :=
  (tr.filter (isHandleOf i)).length

/-- Recognises the `process_content` entry of a trace. -/
def isProcess : TraceEntry → Bool
  | TraceEntry.process _ _ => true
  | _ => false

/-! ### Concrete fixtures used by witnesses and counterexamples -/

/-- A listener at `/a` whose `check` always returns true. -/
def lAncestor : Listener := ⟨7, ["a"], [], fun _ _ _ _ => true, false⟩

/-- A router whose only listener is `lAncestor`. -/
def rAncestor : Router := Router.new.register lAncestor

/-- An event on `/a/b`, below `lAncestor`'s path. -/
def eBelow : Event := ⟨["a", "b"], 0, "m", []⟩

/-- A listener at `/x` whose handler raises. -/
def lFail : Listener := ⟨1, ["x"], [], fun _ _ _ _ => true, true⟩

/-- A second listener at `/x` whose handler succeeds. -/
def lOk : Listener := ⟨2, ["x"], [], fun _ _ _ _ => true, false⟩

/-- A router with both `/x` listeners registered, `lFail` first. -/
def rTwo : Router := (Router.new.register lFail).register lOk

/-- An event on `/x` matching both `/x` listeners. -/
def eX : Event := ⟨["x"], 3, "c", []⟩

/-- A listener at `/g` carrying a static attribute that fails to match. -/
def lNoAttr : Listener := ⟨4, ["g"], [("kind", "other")], fun _ _ _ _ => true, false⟩

/-- A listener at `/g` carrying the matching static attribute. -/
def lWithAttr : Listener := ⟨5, ["g"], [("kind", "wanted")], fun _ _ _ _ => true, false⟩

/-- A router with both `/g` listeners registered, `lNoAttr` first. -/
def rAttrs : Router := (Router.new.register lNoAttr).register lWithAttr

/-! ### Cooperative-scheduler refinement of the fan-out

`dispatchEvent` records which calls happen with which arguments, but it
does not capture when each handler coroutine finishes relative to the
loop.  `asyncio.gather(*events)` with its default `return_exceptions` is
resolved by the first raised exception, and the remaining handler tasks
are not cancelled: they keep running on the event loop while the dispatch
loop has already moved on.  The following small-step model makes that
visible: handlers take a number of scheduler slots, the gather await is
run round by round, and tasks left unfinished by an exceptional gather
continue in the background. -/

/-- A handler coroutine as scheduled by `asyncio.gather`: the listener's
identity, the number of scheduler slots it still needs, and whether it
ends by raising. -/
structure HandlerTask where
  lid : Nat
  remaining : Nat
  fails : Bool
deriving DecidableEq, Repr

/-- One observable step of the scheduled dispatch loop: the content
transform of the event at queue index `idx`, the scheduling of a
listener's handler by `asyncio.gather`, a handler coroutine finishing
(`ok = false` means it raised), or the `except` block's log line. -/
inductive SchedEntry where
  | process (idx : Nat) (raw : String) (result : String)
  | handleStart (idx : Nat) (lid : Nat)
  | handleFinish (lid : Nat) (ok : Bool)
  | logError (idx : Nat)
deriving DecidableEq, Repr

/-- One cooperative round: every live task runs one slot, in task order; a
task on its last slot finishes, raising iff `fails`.  Returns the finish
entries of the round, the still-live tasks, and whether some task raised
during the round. -/
def stepTasks : List HandlerTask → List SchedEntry × List HandlerTask × Bool
  | [] => ([], [], false)
  | t :: ts =>
      if t.remaining ≤ 1 then
        (SchedEntry.handleFinish t.lid (!t.fails) :: (stepTasks ts).1,
          (stepTasks ts).2.1, (t.fails || (stepTasks ts).2.2))
      else
        ((stepTasks ts).1,
          ⟨t.lid, t.remaining - 1, t.fails⟩ :: (stepTasks ts).2.1,
          (stepTasks ts).2.2)

/-- `await asyncio.gather(*events)` run round by round, interleaved with
the background tasks left over from earlier fan-outs.  The await resolves
once every gathered task has finished, or at the end of the first round in
which one of them raised — in that case the unfinished gathered tasks are
NOT cancelled and join the background.  Returns the emitted entries, the
background tasks still live after the await, and whether an exception was
delivered to the loop. -/
def gatherRounds : Nat → List HandlerTask → List HandlerTask →
    List SchedEntry × List HandlerTask × Bool
  | 0, _, bg => ([], bg, false)
  | _ + 1, [], bg => ([], bg, false)
  | fuel + 1, t :: ts, bg =>
      if (stepTasks (t :: ts)).2.2 then
        ((stepTasks (t :: ts)).1 ++ (stepTasks bg).1,
          (stepTasks (t :: ts)).2.1 ++ (stepTasks bg).2.1, true)
      else
        ((stepTasks (t :: ts)).1 ++ (stepTasks bg).1
            ++ (gatherRounds fuel (stepTasks (t :: ts)).2.1 (stepTasks bg).2.1).1,
          (gatherRounds fuel (stepTasks (t :: ts)).2.1 (stepTasks bg).2.1).2.1,
          (gatherRounds fuel (stepTasks (t :: ts)).2.1 (stepTasks bg).2.1).2.2)

/-- The largest number of slots any task still needs — enough rounds for
every gathered task to finish. -/
def maxRemaining (ts : List HandlerTask) : Nat :=
  ts.foldl (fun a t => max a t.remaining) 0

/-- Runs the leftover background tasks to completion once the loop is
blocked on an empty queue. -/
def drain : Nat → List HandlerTask → List SchedEntry
  | 0, _ => []
  | _ + 1, [] => []
  | fuel + 1, t :: ts =>
      (stepTasks (t :: ts)).1 ++ drain fuel (stepTasks (t :: ts)).2.1

/-- The gathered tasks for an event's matched listeners: listener `lid`
runs for `ticks lid + 1` slots and raises iff its `handleFails` flag is
set. -/
def mkTasks (ticks : Nat → Nat) (m : List (Listener × Path)) : List HandlerTask :=
  m.map (fun lq => ⟨lq.1.id, ticks lq.1.id + 1, lq.1.handleFails⟩)

/-- The dispatch loop under the cooperative scheduler: dequeue, transform,
match (with the same embedded matching code), start the gathered handlers,
await the gather round by round — resuming early at the first raised
exception, whose unfinished handlers keep running in the background — log
on failure, and continue with the next event; once the queue is exhausted
the leftover background tasks run to completion. -/
def dispatchSched (proc : String → Attrs → String) (ticks : Nat → Nat) (r : Router) :
    Nat → List HandlerTask → List Event → List SchedEntry
  | _, bg, [] => drain (maxRemaining bg) bg
  | idx, bg, e :: rest =>
      SchedEntry.process idx e.content (proc e.content e.attributes)
        :: ((mkTasks ticks (matchedListeners r e (proc e.content e.attributes))).map
              (fun t => SchedEntry.handleStart idx t.lid)
          ++ (gatherRounds
                (maxRemaining (mkTasks ticks (matchedListeners r e (proc e.content e.attributes))))
                (mkTasks ticks (matchedListeners r e (proc e.content e.attributes))) bg).1
          ++ (if (gatherRounds
                (maxRemaining (mkTasks ticks (matchedListeners r e (proc e.content e.attributes))))
                (mkTasks ticks (matchedListeners r e (proc e.content e.attributes))) bg).2.2
              then [SchedEntry.logError idx] else [])
          ++ dispatchSched proc ticks r (idx + 1)
              (gatherRounds
                (maxRemaining (mkTasks ticks (matchedListeners r e (proc e.content e.attributes))))
                (mkTasks ticks (matchedListeners r e (proc e.content e.attributes))) bg).2.1
              rest)

/-- A full run of the scheduled dispatch loop from an empty background. -/
def runSched (proc : String → Attrs → String) (ticks : Nat → Nat) (r : Router)
    (q : List Event) : List SchedEntry :=
  dispatchSched proc ticks r 0 [] q

/-- One event's fan-out dispatched in isolation: its transform, its
handler starts, and its gather rounds run with no background and awaited
to full completion before anything else happens. -/
def eventSegment (proc : String → Attrs → String) (ticks : Nat → Nat) (r : Router)
    (idx : Nat) (e : Event) : List SchedEntry :=
  SchedEntry.process idx e.content (proc e.content e.attributes)
    :: ((mkTasks ticks (matchedListeners r e (proc e.content e.attributes))).map
          (fun t => SchedEntry.handleStart idx t.lid)
      ++ (gatherRounds
            (maxRemaining (mkTasks ticks (matchedListeners r e (proc e.content e.attributes))))
            (mkTasks ticks (matchedListeners r e (proc e.content e.attributes))) []).1
      ++ (if (gatherRounds
            (maxRemaining (mkTasks ticks (matchedListeners r e (proc e.content e.attributes))))
            (mkTasks ticks (matchedListeners r e (proc e.content e.attributes))) []).2.2
          then [SchedEntry.logError idx] else []))

/-- Modelled from the spec's ordering guarantee ("no event begins
processing until the previous event's entire fan-out has finished"): the
run in which each event's segment completes strictly before the next
event's begins. -/
def specSequentialRun (proc : String → Attrs → String) (ticks : Nat → Nat) (r : Router) :
    Nat → List Event → List SchedEntry
  | _, [] => []
  | idx, e :: rest =>
      eventSegment proc ticks r idx e ++ specSequentialRun proc ticks r (idx + 1) rest

/-- Extracts the queue index of a `process` entry. -/
def processIdx : SchedEntry → Option Nat
  | SchedEntry.process i _ _ => some i
  | _ => none

/-- A listener at `/y` whose handler succeeds. -/
def lY : Listener := ⟨3, ["y"], [], fun _ _ _ _ => true, false⟩

/-- A router with the two `/x` listeners and the `/y` listener. -/
def rCex : Router := rTwo.register lY

/-- An event on `/y`. -/
def eY : Event := ⟨["y"], 0, "n", []⟩

/-- Handler durations for the counterexample: listener 2's handler needs
two scheduler slots, every other handler one. -/
def ticksCex : Nat → Nat := fun lid => if lid == 2 then 1 else 0

end Futaba

namespace Futaba

theorem lookupHooks_nil (n : String) : lookupHooks [] n = none := rfl

theorem lookupHooks_cons (k : String) (v : List Hook) (rest : HookReg) (n : String) :
    lookupHooks ((k, v) :: rest) n = if k = n then some v else lookupHooks rest n := by
  by_cases hk : k = n
  · simp [lookupHooks, List.find?, hk]
  · simp only [lookupHooks, List.find?]
    rw [show (k == n) = false by simpa using hk, if_neg hk]

theorem lookupHooks_map_update (hs : HookReg) (name : String) (h : Hook) :
    lookupHooks (hs.map (fun kv => if kv.1 == name then (kv.1, kv.2 ++ [h]) else kv)) name
      = (lookupHooks hs name).map (fun l => l ++ [h]) := by
  induction hs with
  | nil => rfl
  | cons kv rest ih =>
      obtain ⟨k, v⟩ := kv
      by_cases hk : k = name
      · simp [lookupHooks_cons, hk]
      · simp only [List.map_cons]
        rw [show ((k, v).1 == name) = false by simpa using hk, if_neg (by simp)]
        rw [lookupHooks_cons, lookupHooks_cons, if_neg hk, if_neg hk]
        exact ih

theorem lookupHooks_map_other (hs : HookReg) (name n : String) (h : Hook)
    (hne : n ≠ name) :
    lookupHooks (hs.map (fun kv => if kv.1 == name then (kv.1, kv.2 ++ [h]) else kv)) n
      = lookupHooks hs n := by
  induction hs with
  | nil => rfl
  | cons kv rest ih =>
      obtain ⟨k, v⟩ := kv
      by_cases hk : k = name
      · rw [List.map_cons, show ((k, v).1 == name) = true by simpa using hk, if_pos rfl]
        rw [lookupHooks_cons, lookupHooks_cons]
        rw [if_neg (by simpa [hk] using fun e => hne e.symm),
          if_neg (by simpa [hk] using fun e => hne e.symm)]
        exact ih
      · rw [List.map_cons, show ((k, v).1 == name) = false by simpa using hk, if_neg (by simp)]
        rw [lookupHooks_cons, lookupHooks_cons]
        by_cases hkn : k = n
        · rw [if_pos hkn, if_pos hkn]
        · rw [if_neg hkn, if_neg hkn]
          exact ih

theorem map_fst_map_update (hs : HookReg) (name : String) (h : Hook) :
    (hs.map (fun kv => if kv.1 == name then (kv.1, kv.2 ++ [h]) else kv)).map Prod.fst
      = hs.map Prod.fst := by
  induction hs with
  | nil => rfl
  | cons kv rest ih =>
      obtain ⟨k, v⟩ := kv
      by_cases hk : k = name
      · simpa [hk] using ih
      · rw [List.map_cons, show ((k, v).1 == name) = false by simpa using hk, if_neg (by simp)]
        simpa using ih

/-- Claim C10: `register_hook(name, hook)` raises `ValueError` if and only if
`name` is not one of `HOOK_NAMES`, leaving the registry unchanged in that
case; for a valid name it appends the hook to that name's bucket and leaves
every other bucket alone, so the key set stays exactly `HOOK_NAMES` and each
bucket keeps registration order. -/
theorem C10_register_hook (hs : HookReg) (name : String) (h : Hook) :
    ((register_hook hs name h).2.isSome ↔ name ∉ HOOK_NAMES)
    ∧ (name ∉ HOOK_NAMES → (register_hook hs name h).1 = hs)
    ∧ (name ∈ HOOK_NAMES →
        (register_hook hs name h).1.map Prod.fst = hs.map Prod.fst
        ∧ lookupHooks (register_hook hs name h).1 name
            = (lookupHooks hs name).map (fun l => l ++ [h])
        ∧ ∀ n, n ≠ name →
            lookupHooks (register_hook hs name h).1 n = lookupHooks hs n)
    ∧ initHooks.map Prod.fst = HOOK_NAMES := by
  refine ⟨?_, ?_, ?_, by rfl⟩
  · by_cases hm : name ∈ HOOK_NAMES
    · simp [register_hook, hm]
    · simp [register_hook, hm]
  · intro hm
    simp [register_hook, hm]
  · intro hm
    have hc : HOOK_NAMES.contains name = true := by simpa using hm
    refine ⟨?_, ?_, ?_⟩
    · rw [register_hook, if_pos hc]
      exact map_fst_map_update hs name h
    · rw [register_hook, if_pos hc]
      exact lookupHooks_map_update hs name h
    · intro n hn
      rw [register_hook, if_pos hc]
      exact lookupHooks_map_other hs name n h hn

/-- Witness for C10 at a concrete registry, valid name and invalid name. -/
theorem C10_register_hook_witness :
    ("on_guild_join" ∈ HOOK_NAMES
      ∧ lookupHooks (register_hook initHooks "on_guild_join" ⟨5, false⟩).1 "on_guild_join"
          = (lookupHooks initHooks "on_guild_join").map (fun l => l ++ [⟨5, false⟩]))
    ∧ ("bogus" ∉ HOOK_NAMES
      ∧ (register_hook initHooks "bogus" ⟨5, false⟩).2.isSome) := by
  constructor
  · refine ⟨by decide, ?_⟩
    exact ((C10_register_hook initHooks "on_guild_join" ⟨5, false⟩).2.2.1 (by decide)).2.1
  · refine ⟨by decide, ?_⟩
    exact ((C10_register_hook initHooks "bogus" ⟨5, false⟩).1).mpr (by decide)

theorem runIds_flatMap (l : List Hook) :
    (l.flatMap runOne).filterMap runId = l.map Hook.id := by
  induction l with
  | nil => rfl
  | cons hk rest ih =>
      by_cases hf : hk.fails
      · simp [runOne, hf, runId, ih]
      · simp [runOne, hf, runId, ih]

/-- Claim C9: for a registered hook name, `run_hooks` returns normally
(never propagating a hook's exception), invokes every hook in that name's
bucket in registration order, and logs each failing hook's error while
still running every later hook. -/
theorem C9_run_hooks (hs : HookReg) (name : String) (l : List Hook)
    (hl : lookupHooks hs name = some l) :
    ∃ tr, run_hooks hs name = some tr
      ∧ tr.filterMap runId = l.map Hook.id
      ∧ ∀ hk ∈ l, hk.fails = true → HookEntry.logErr hk.id ∈ tr := by
  refine ⟨l.flatMap runOne, by simp [run_hooks, hl], runIds_flatMap l, ?_⟩
  intro hk hmem hf
  rw [List.mem_flatMap]
  exact ⟨hk, hmem, by simp [runOne, hf]⟩

/-- Witness for C9: two hooks, the first failing, both run and the failure
is logged. -/
theorem C9_run_hooks_witness :
    lookupHooks [("on_guild_join", [⟨1, true⟩, ⟨2, false⟩])] "on_guild_join"
        = some [⟨1, true⟩, ⟨2, false⟩]
    ∧ ∃ tr, run_hooks [("on_guild_join", [⟨1, true⟩, ⟨2, false⟩])] "on_guild_join" = some tr
      ∧ tr.filterMap runId = [⟨1, true⟩, ⟨2, false⟩].map Hook.id
      ∧ ∀ hk ∈ ([⟨1, true⟩, ⟨2, false⟩] : List Hook), hk.fails = true →
          HookEntry.logErr hk.id ∈ tr := by
  refine ⟨by decide, ?_⟩
  exact C9_run_hooks [("on_guild_join", [⟨1, true⟩, ⟨2, false⟩])] "on_guild_join"
    [⟨1, true⟩, ⟨2, false⟩] (by decide)

/-! ## Registry operations: `unregister` and `get` -/

theorem removeFirst_none_iff (i : Nat) (xs : List Listener) :
    removeFirst i xs = none ↔ ∀ x ∈ xs, x.id ≠ i := by
  induction xs with
  | nil => simp [removeFirst]
  | cons x rest ih =>
      by_cases hx : x.id = i
      · simp [removeFirst, hx]
      · simp [removeFirst, hx, ih]

theorem removeFirst_some (i : Nat) (xs ys : List Listener)
    (h : removeFirst i xs = some ys) :
    ∃ pre x post, xs = pre ++ x :: post ∧ x.id = i
      ∧ (∀ y ∈ pre, y.id ≠ i) ∧ ys = pre ++ post := by
  induction xs generalizing ys with
  | nil => simp [removeFirst] at h
  | cons x rest ih =>
      by_cases hx : x.id = i
      · refine ⟨[], x, rest, by simp, hx, by simp, ?_⟩
        simp [removeFirst, hx] at h
        simpa using h.symm
      · simp only [removeFirst, if_neg hx] at h
        cases hr : removeFirst i rest with
        | none => rw [hr] at h; simp at h
        | some zs =>
            rw [hr] at h
            rw [Option.map_some'] at h
            rw [Option.some.injEq] at h
            obtain ⟨pre, y, post, hxs, hy, hpre, hzs⟩ := ih zs hr
            exact ⟨x :: pre, y, post, by simp [hxs], hy,
              by simpa [hx] using hpre, by simp [← h, hzs]⟩

/-- Claim C6: `unregister(listener)` removes exactly the first occurrence of
the listener from the bucket for `listener.path`, leaves every other bucket
untouched, and when the listener is absent it fails (a `ValueError`, the
"NotFound" condition) leaving the registry unchanged; register-then-unregister
on a previously empty bucket empties it again. -/
theorem C6_unregister (r : Router) (l : Listener) :
    (∀ r', r.unregister l = some r' →
        (∃ pre x post, r.paths l.path = pre ++ x :: post ∧ x.id = l.id
          ∧ (∀ y ∈ pre, y.id ≠ l.id) ∧ r'.paths l.path = pre ++ post)
        ∧ ∀ p, p ≠ l.path → r'.paths p = r.paths p)
    ∧ (r.unregister l = none ↔ ∀ x ∈ r.paths l.path, x.id ≠ l.id)
    ∧ (r.paths l.path = [] →
        ∃ r', (r.register l).unregister l = some r' ∧ r'.paths l.path = []) := by
  refine ⟨?_, ?_, ?_⟩
  · intro r' hr'
    rw [Router.unregister] at hr'
    cases hb : removeFirst l.id (r.paths l.path) with
    | none => rw [hb] at hr'; exact absurd hr' (by simp)
    | some b =>
        rw [hb] at hr'
        simp only [Option.some.injEq] at hr'
        obtain ⟨pre, x, post, hxs, hx, hpre, hb'⟩ := removeFirst_some _ _ _ hb
        constructor
        · exact ⟨pre, x, post, hxs, hx, hpre, by rw [← hr']; simpa using hb'⟩
        · intro p hp
          rw [← hr']
          simp [hp]
  · rw [Router.unregister]
    cases hb : removeFirst l.id (r.paths l.path) with
    | none => simpa using (removeFirst_none_iff l.id (r.paths l.path)).mp hb
    | some b =>
        simp only []
        constructor
        · intro h; exact absurd h (by simp)
        · intro h
          rw [(removeFirst_none_iff l.id (r.paths l.path)).mpr h] at hb
          exact absurd hb (by simp)
  · intro hempty
    have hbucket : (r.register l).paths l.path = [l] := by
      simp [Router.register, hempty]
    refine ⟨⟨fun p => if p = l.path then [] else (r.register l).paths p⟩, ?_, by simp⟩
    rw [Router.unregister, hbucket]
    simp [removeFirst]

/-- Witness for C6: registering a listener on an empty router and
unregistering it leaves its bucket empty, and unregistering from the empty
router fails. -/
theorem C6_unregister_witness :
    (Router.new.paths lOk.path = []
      ∧ ∃ r', (Router.new.register lOk).unregister lOk = some r'
          ∧ r'.paths lOk.path = [])
    ∧ ((Router.new.unregister lOk = none)
        ↔ ∀ x ∈ Router.new.paths lOk.path, x.id ≠ lOk.id) := by
  refine ⟨⟨rfl, ?_⟩, ?_⟩
  · exact (C6_unregister Router.new lOk).2.2 rfl
  · exact (C6_unregister Router.new lOk).2.1

theorem find?_eq_some_first {α : Type} (p : α → Bool) (xs : List α) (a : α)
    (h : xs.find? p = some a) :
    ∃ pre post, xs = pre ++ a :: post ∧ p a = true ∧ ∀ y ∈ pre, p y = false := by
  induction xs with
  | nil => simp [List.find?] at h
  | cons x rest ih =>
      cases hx : p x with
      | true =>
          rw [List.find?, hx] at h
          simp only [Option.some.injEq] at h
          exact ⟨[], rest, by simp [h], h ▸ hx, by simp⟩
      | false =>
          rw [List.find?, hx] at h
          obtain ⟨pre, post, hxs, hpa, hpre⟩ := ih h
          refine ⟨x :: pre, post, by simp [hxs], hpa, ?_⟩
          intro y hy
          rcases List.mem_cons.mp hy with hy | hy
          · rw [hy]; exact hx
          · exact hpre y hy

/-- Claim C7: `get(path, **attrs)` returns the first listener, in
registration order, in the bucket for exactly `path` whose static
attributes all exist and equal the requested ones; it returns `None` when
none matches, its answer depends only on that one bucket (ancestors and
descendants are never consulted), and a path with no registrations reads
as an empty bucket, never an error. -/
theorem C7_get (r : Router) (path : Path) (attrs : Attrs) :
    (∀ l, r.get path attrs = some l →
        ∃ pre post, r.paths path = pre ++ l :: post
          ∧ attrs_match l.sattrs attrs = true
          ∧ ∀ y ∈ pre, attrs_match y.sattrs attrs = false)
    ∧ (r.get path attrs = none ↔
        ∀ l ∈ r.paths path, attrs_match l.sattrs attrs = false)
    ∧ (∀ obj : Attrs, attrs_match obj attrs = true ↔
        ∀ kv ∈ attrs, lookupAttr obj kv.1 = some kv.2)
    ∧ (∀ r₂ : Router, r₂.paths path = r.paths path →
        r₂.get path attrs = r.get path attrs)
    ∧ Router.new.paths path = [] ∧ Router.new.get path attrs = none := by
  refine ⟨?_, ?_, ?_, ?_, rfl, rfl⟩
  · intro l hl
    exact find?_eq_some_first _ _ _ hl
  · rw [Router.get, List.find?_eq_none]
    constructor
    · intro h l hl
      simpa using h l hl
    · intro h l hl
      simp [h l hl]
  · intro obj
    rw [attrs_match, List.all_eq_true]
    constructor
    · intro h kv hkv
      have := h kv hkv
      cases hlk : lookupAttr obj kv.1 with
      | none => rw [hlk] at this; exact absurd this (by simp)
      | some w =>
          rw [hlk] at this
          simp only [beq_iff_eq] at this
          rw [this]
    · intro h kv hkv
      rw [h kv hkv]
      simp
  · intro r₂ h
    rw [Router.get, Router.get, h]

/-- Witness for C7: in a bucket holding a non-matching then a matching
listener, `get` skips the first and returns the second. -/
theorem C7_get_witness :
    rAttrs.get ["g"] [("kind", "wanted")] = some lWithAttr
    ∧ (∃ pre post, rAttrs.paths ["g"] = pre ++ lWithAttr :: post
        ∧ attrs_match lWithAttr.sattrs [("kind", "wanted")] = true
        ∧ ∀ y ∈ pre, attrs_match y.sattrs [("kind", "wanted")] = false)
    ∧ Router.new.get ["g"] [("kind", "wanted")] = none := by
  have h1 : rAttrs.get ["g"] [("kind", "wanted")] = some lWithAttr := by
    rw [Router.get]
    show List.find? _ [lNoAttr, lWithAttr] = some lWithAttr
    rw [List.find?]
    rw [show attrs_match lNoAttr.sattrs [("kind", "wanted")] = false from by decide]
    rw [List.find?]
    rw [show attrs_match lWithAttr.sattrs [("kind", "wanted")] = true from by decide]
  refine ⟨h1, ?_, (C7_get Router.new ["g"] [("kind", "wanted")]).2.2.2.2.2⟩
  exact (C7_get rAttrs ["g"] [("kind", "wanted")]).1 lWithAttr h1

/-! ## Path ancestry and the per-event match set -/

theorem takesDesc_mem (p : Path) (n : Nat) (q : Path) :
    q ∈ takesDesc p n ↔ ∃ k, k < n ∧ q = p.take k := by
  induction n with
  | zero => simp [takesDesc]
  | succ m ih =>
      simp only [takesDesc, List.mem_cons, ih]
      constructor
      · rintro (h | ⟨k, hk, hq⟩)
        · exact ⟨m, Nat.lt_succ_self m, h⟩
        · exact ⟨k, Nat.lt_succ_of_lt hk, hq⟩
      · rintro ⟨k, hk, hq⟩
        rcases Nat.lt_succ_iff_lt_or_eq.mp hk with hk | hk
        · exact Or.inr ⟨k, hk, hq⟩
        · exact Or.inl (by rw [hq, hk])

theorem length_take_of_le {p : Path} {k : Nat} (h : k ≤ p.length) :
    (p.take k).length = k := by
  rw [List.length_take]
  exact min_eq_left h

theorem parents_mem (p q : Path) :
    q ∈ parents p ↔ q.length < p.length ∧ q = p.take q.length := by
  rw [parents, takesDesc_mem]
  constructor
  · rintro ⟨k, hk, hq⟩
    have hlen : q.length = k := hq ▸ length_take_of_le (Nat.le_of_lt hk)
    exact ⟨hlen ▸ hk, by rw [hlen]; exact hq⟩
  · rintro ⟨hlt, hq⟩
    exact ⟨q.length, hlt, hq⟩

theorem matchChain_mem (p q : Path) :
    q ∈ matchChain p ↔ q.length ≤ p.length ∧ q = p.take q.length := by
  rw [matchChain, List.mem_cons, parents_mem]
  constructor
  · rintro (h | ⟨hlt, hq⟩)
    · subst h
      exact ⟨Nat.le_refl _, (List.take_length q).symm⟩
    · exact ⟨Nat.le_of_lt hlt, hq⟩
  · rintro ⟨hle, hq⟩
    rcases Nat.lt_or_ge q.length p.length with hlt | hge
    · exact Or.inr ⟨hlt, hq⟩
    · left
      have : q.length = p.length := Nat.le_antisymm hle hge
      rw [hq, this, List.take_length]

theorem takesDesc_pairwise (p : Path) (n : Nat) (hn : n ≤ p.length) :
    (takesDesc p n).Pairwise (fun a b => b.length < a.length) := by
  induction n with
  | zero => exact List.Pairwise.nil
  | succ m ih =>
      rw [takesDesc, List.pairwise_cons]
      refine ⟨?_, ih (Nat.le_of_succ_le hn)⟩
      intro q hq
      obtain ⟨k, hk, hq⟩ := (takesDesc_mem p m q).mp hq
      have hkp : k ≤ p.length := Nat.le_trans (Nat.le_of_lt hk) (Nat.le_of_succ_le hn)
      rw [hq, length_take_of_le hkp, length_take_of_le (Nat.le_of_succ_le hn)]
      exact hk

theorem matchChain_pairwise (p : Path) :
    (matchChain p).Pairwise (fun a b => b.length < a.length) := by
  rw [matchChain, List.pairwise_cons]
  refine ⟨?_, takesDesc_pairwise p p.length (Nat.le_refl _)⟩
  intro q hq
  exact ((parents_mem p q).mp hq).1

theorem candidates_mem (r : Router) (p : Path) (l : Listener) (q : Path) :
    (l, q) ∈ candidates r p ↔ q ∈ matchChain p ∧ l ∈ r.paths q := by
  rw [candidates, List.mem_flatMap]
  constructor
  · rintro ⟨q', hq', hmem⟩
    obtain ⟨l', hl', heq⟩ := List.mem_map.mp hmem
    cases heq
    exact ⟨hq', hl'⟩
  · rintro ⟨hq, hl⟩
    exact ⟨q, hq, List.mem_map.mpr ⟨l, hl, rfl⟩⟩

theorem mem_dispatchEvent (proc : String → Attrs → String) (r : Router)
    (e : Event) (t : TraceEntry) :
    t ∈ dispatchEvent proc r e ↔
      t = TraceEntry.process e.content (proc e.content e.attributes)
      ∨ (∃ lq ∈ candidates r e.path,
          t = TraceEntry.checkCall lq.1.id lq.2 e.guild (proc e.content e.attributes)
            (lq.1.checkFn lq.2 e.guild (proc e.content e.attributes) e.attributes))
      ∨ (∃ lq ∈ matchedListeners r e (proc e.content e.attributes),
          t = TraceEntry.handleCall lq.1.id e.path e.guild (proc e.content e.attributes))
      ∨ (t = TraceEntry.logError
          ∧ (matchedListeners r e (proc e.content e.attributes)).any
              (fun lq => lq.1.handleFails) = true) := by
  rw [dispatchEvent]
  simp only [List.mem_cons, List.mem_append, List.mem_map]
  constructor
  · rintro (h | (⟨lq, hlq, ht⟩ | ⟨lq, hlq, ht⟩) | h)
    · exact Or.inl h
    · exact Or.inr (Or.inl ⟨lq, hlq, ht.symm⟩)
    · exact Or.inr (Or.inr (Or.inl ⟨lq, hlq, ht.symm⟩))
    · by_cases hfail : (matchedListeners r e (proc e.content e.attributes)).any
          (fun lq => lq.1.handleFails) = true
      · rw [if_pos hfail] at h
        exact Or.inr (Or.inr (Or.inr ⟨List.mem_singleton.mp h, hfail⟩))
      · rw [if_neg hfail] at h
        exact absurd h (List.not_mem_nil t)
  · rintro (h | ⟨lq, hlq, ht⟩ | ⟨lq, hlq, ht⟩ | ⟨ht, hfail⟩)
    · exact Or.inl h
    · exact Or.inr (Or.inl (Or.inl ⟨lq, hlq, ht.symm⟩))
    · exact Or.inr (Or.inl (Or.inr ⟨lq, hlq, ht.symm⟩))
    · refine Or.inr (Or.inr ?_)
      rw [if_pos hfail, ht]
      exact List.mem_singleton.mpr rfl

/-- Claim C1: the listeners considered for an event are exactly those in
the buckets of the event's own path and of every strict-ancestor path,
examined most-specific path first; an ancestor listener whose `check`
returns true receives a `handle` call, while a listener found in none of
those buckets (in particular one registered only at a strictly more
specific path) is never invoked. -/
theorem C1_match_set (proc : String → Attrs → String) (r : Router)
    (e : Event) (i : Nat) :
    (∀ q, q ∈ matchChain e.path ↔ q.length ≤ e.path.length ∧ q = e.path.take q.length)
    ∧ (matchChain e.path).Pairwise (fun a b => b.length < a.length)
    ∧ (∀ l q, l ∈ r.paths q → q.length < e.path.length → q = e.path.take q.length →
        l.checkFn q e.guild (proc e.content e.attributes) e.attributes = true →
        TraceEntry.handleCall l.id e.path e.guild (proc e.content e.attributes)
          ∈ dispatchEvent proc r e)
    ∧ ((∀ q ∈ matchChain e.path, ∀ l ∈ r.paths q, l.id ≠ i) →
        ∀ pa g c, TraceEntry.handleCall i pa g c ∉ dispatchEvent proc r e) := by
  refine ⟨fun q => matchChain_mem e.path q, matchChain_pairwise e.path, ?_, ?_⟩
  · intro l q hl hlt htake hcheck
    have hq : q ∈ matchChain e.path :=
      (matchChain_mem e.path q).mpr ⟨Nat.le_of_lt hlt, htake⟩
    have hc : (l, q) ∈ candidates r e.path := (candidates_mem r e.path l q).mpr ⟨hq, hl⟩
    have hm : (l, q) ∈ matchedListeners r e (proc e.content e.attributes) :=
      List.mem_filter.mpr ⟨hc, hcheck⟩
    exact (mem_dispatchEvent proc r e _).mpr (Or.inr (Or.inr (Or.inl ⟨(l, q), hm, rfl⟩)))
  · intro hno pa g c hmem
    rcases (mem_dispatchEvent proc r e _).mp hmem with h | ⟨lq, hlq, ht⟩ | ⟨lq, hlq, ht⟩ | ⟨ht, _⟩
    · exact absurd h (by simp)
    · exact absurd ht (by simp)
    · obtain ⟨l', q'⟩ := lq
      have hc : (l', q') ∈ candidates r e.path := (List.mem_filter.mp hlq).1
      obtain ⟨hq', hl'⟩ := (candidates_mem r e.path l' q').mp hc
      have : i = l'.id := by
        injection ht with h1 h2 h3 h4
      exact hno q' hq' l' hl' this.symm
    · exact absurd ht (by simp)

/-- Witness for C1: the listener at `/a` is invoked for an event on
`/a/b`, and a listener identity present in no examined bucket is never
invoked. -/
theorem C1_match_set_witness :
    (lAncestor ∈ rAncestor.paths ["a"]
      ∧ (["a"] : Path).length < eBelow.path.length
      ∧ (["a"] : Path) = eBelow.path.take (["a"] : Path).length
      ∧ lAncestor.checkFn ["a"] eBelow.guild
          ((fun c _ => c) eBelow.content eBelow.attributes) eBelow.attributes = true
      ∧ TraceEntry.handleCall lAncestor.id eBelow.path eBelow.guild
          ((fun c _ => c) eBelow.content eBelow.attributes)
          ∈ dispatchEvent (fun c _ => c) rAncestor eBelow)
    ∧ ((∀ q ∈ matchChain eBelow.path, ∀ l ∈ rAncestor.paths q, l.id ≠ 9)
      ∧ TraceEntry.handleCall 9 ["a", "b", "c"] 0 "m"
          ∉ dispatchEvent (fun c _ => c) rAncestor eBelow) := by
  have hmem : lAncestor ∈ rAncestor.paths ["a"] := by
    rw [show rAncestor.paths ["a"] = [lAncestor] from rfl]
    exact List.mem_singleton.mpr rfl
  have hno : ∀ q ∈ matchChain eBelow.path, ∀ l ∈ rAncestor.paths q, l.id ≠ 9 := by
    intro q hq l hl
    rcases (matchChain_mem eBelow.path q).mp hq with ⟨hlen, htake⟩
    have hq3 : q = ["a", "b"] ∨ q = ["a"] ∨ q = [] := by
      rcases q with _ | ⟨s, _ | ⟨s2, rest⟩⟩
      · exact Or.inr (Or.inr rfl)
      · refine Or.inr (Or.inl ?_)
        rw [htake]; rfl
      · left
        have h2 : (s :: s2 :: rest).length ≤ 2 := hlen
        have hr : rest = [] := by
          cases rest with
          | nil => rfl
          | cons a b => exact absurd h2 (by simp [List.length])
        subst hr
        rw [htake]; rfl
    rcases hq3 with hq3 | hq3 | hq3 <;> subst hq3
    · exact absurd hl (by rw [show rAncestor.paths ["a", "b"] = [] from rfl]; simp)
    · rw [show rAncestor.paths ["a"] = [lAncestor] from rfl] at hl
      rw [List.mem_singleton.mp hl]
      decide
    · exact absurd hl (by rw [show rAncestor.paths [] = [] from rfl]; simp)
  refine ⟨⟨hmem, by decide, by decide, rfl, ?_⟩, hno, ?_⟩
  · exact (C1_match_set (fun c _ => c) rAncestor eBelow 9).2.2.1 lAncestor ["a"]
      hmem (by decide) (by decide) rfl
  · exact (C1_match_set (fun c _ => c) rAncestor eBelow 9).2.2.2 hno ["a", "b", "c"] 0 "m"

/-- Claim C2: each dequeued event's content is transformed by the external
content processor exactly once, before any listener is tested or invoked,
and every `check` and `handle` call for that event receives the same
already-transformed content string. -/
theorem C2_process_once (proc : String → Attrs → String) (r : Router) (e : Event) :
    ((dispatchEvent proc r e).filter isProcess).length = 1
    ∧ (dispatchEvent proc r e).head?
        = some (TraceEntry.process e.content (proc e.content e.attributes))
    ∧ (∀ lid pa g c, TraceEntry.handleCall lid pa g c ∈ dispatchEvent proc r e →
        c = proc e.content e.attributes)
    ∧ (∀ lid pa g c b, TraceEntry.checkCall lid pa g c b ∈ dispatchEvent proc r e →
        c = proc e.content e.attributes) := by
  refine ⟨?_, rfl, ?_, ?_⟩
  · rw [dispatchEvent]
    rw [List.filter_cons_of_pos (by rfl)]
    rw [List.filter_append, List.filter_append]
    rw [List.filter_eq_nil_iff.mpr (fun t ht => by
      obtain ⟨lq, _, heq⟩ := List.mem_map.mp ht
      rw [← heq]; simp [isProcess])]
    rw [List.filter_eq_nil_iff.mpr (fun t ht => by
      obtain ⟨lq, _, heq⟩ := List.mem_map.mp ht
      rw [← heq]; simp [isProcess])]
    rw [List.filter_eq_nil_iff.mpr (fun t ht => by
      by_cases hfail : (matchedListeners r e (proc e.content e.attributes)).any
          (fun lq => lq.1.handleFails) = true
      · rw [if_pos hfail] at ht
        rw [List.mem_singleton.mp ht]
        simp [isProcess]
      · rw [if_neg hfail] at ht
        exact absurd ht (List.not_mem_nil t))]
    rfl
  · intro lid pa g c hmem
    rcases (mem_dispatchEvent proc r e _).mp hmem with h | ⟨lq, _, ht⟩ | ⟨lq, _, ht⟩ | ⟨ht, _⟩
    · exact absurd h (by simp)
    · exact absurd ht (by simp)
    · injection ht with h1 h2 h3 h4
    · exact absurd ht (by simp)
  · intro lid pa g c b hmem
    rcases (mem_dispatchEvent proc r e _).mp hmem with h | ⟨lq, _, ht⟩ | ⟨lq, _, ht⟩ | ⟨ht, _⟩
    · exact absurd h (by simp)
    · injection ht with h1 h2 h3 h4 h5
    · exact absurd ht (by simp)
    · exact absurd ht (by simp)

/-- Witness for C2: for an event on `/x` with two matching listeners and a
processor that rewrites the content, the trace holds one `process` entry
first, and both handlers receive the same transformed string. -/
theorem C2_process_once_witness :
    ((dispatchEvent (fun c _ => c ++ "!") rTwo eX).filter isProcess).length = 1
    ∧ (dispatchEvent (fun c _ => c ++ "!") rTwo eX).head?
        = some (TraceEntry.process "c" "c!")
    ∧ TraceEntry.handleCall lFail.id eX.path eX.guild "c!"
        ∈ dispatchEvent (fun c _ => c ++ "!") rTwo eX
    ∧ TraceEntry.handleCall lOk.id eX.path eX.guild "c!"
        ∈ dispatchEvent (fun c _ => c ++ "!") rTwo eX
    ∧ ("c!" = (fun (c : String) (_ : Attrs) => c ++ "!") eX.content eX.attributes) := by
  refine ⟨(C2_process_once (fun c _ => c ++ "!") rTwo eX).1, by decide, by decide, by decide, ?_⟩
  exact (C2_process_once (fun c _ => c ++ "!") rTwo eX).2.2.1 lFail.id eX.path eX.guild "c!"
    (by decide)

/-- Counterexample to C5: for the event on `/a/b` and the listener
registered at `/a`, `check` is called with `/a` — the chain path of the
bucket the listener was found in — and never with the event's own path
`/a/b`, even though `handle` does receive `/a/b`. -/
theorem C5_counterexample :
    TraceEntry.checkCall 7 ["a"] 0 "m" true
        ∈ dispatchEvent (fun c _ => c) rAncestor eBelow
    ∧ TraceEntry.checkCall 7 ["a", "b"] 0 "m" true
        ∉ dispatchEvent (fun c _ => c) rAncestor eBelow
    ∧ TraceEntry.checkCall 7 ["a", "b"] 0 "m" false
        ∉ dispatchEvent (fun c _ => c) rAncestor eBelow
    ∧ TraceEntry.handleCall 7 ["a", "b"] 0 "m"
        ∈ dispatchEvent (fun c _ => c) rAncestor eBelow
    ∧ eBelow.path = ["a", "b"]
    ∧ (["a"] : Path) ≠ ["a", "b"] := by decide

/-- Claim C5 as amended: every `check` call receives as its first argument
the match-chain path under whose bucket the listener was found (a prefix of
the event path, equal to it exactly for listeners registered at the event's
own path), not the event path itself; `handle` always receives the event's
own path. -/
theorem C5_check_path_amended (proc : String → Attrs → String) (r : Router) (e : Event) :
    (∀ lid pa g c b, TraceEntry.checkCall lid pa g c b ∈ dispatchEvent proc r e →
        pa ∈ matchChain e.path
        ∧ ∃ l ∈ r.paths pa, l.id = lid ∧ b = l.checkFn pa e.guild c e.attributes)
    ∧ (∀ q ∈ matchChain e.path, ∀ l ∈ r.paths q,
        TraceEntry.checkCall l.id q e.guild (proc e.content e.attributes)
          (l.checkFn q e.guild (proc e.content e.attributes) e.attributes)
          ∈ dispatchEvent proc r e)
    ∧ (∀ lid pa g c, TraceEntry.handleCall lid pa g c ∈ dispatchEvent proc r e →
        pa = e.path) := by
  refine ⟨?_, ?_, ?_⟩
  · intro lid pa g c b hmem
    rcases (mem_dispatchEvent proc r e _).mp hmem with h | ⟨lq, hlq, ht⟩ | ⟨lq, _, ht⟩ | ⟨ht, _⟩
    · exact absurd h (by simp)
    · obtain ⟨l', q'⟩ := lq
      obtain ⟨hq', hl'⟩ := (candidates_mem r e.path l' q').mp hlq
      injection ht with h1 h2 h3 h4 h5
      subst h1; subst h2; subst h3; subst h4; subst h5
      exact ⟨hq', l', hl', rfl, rfl⟩
    · exact absurd ht (by simp)
    · exact absurd ht (by simp)
  · intro q hq l hl
    have hc : (l, q) ∈ candidates r e.path := (candidates_mem r e.path l q).mpr ⟨hq, hl⟩
    exact (mem_dispatchEvent proc r e _).mpr (Or.inr (Or.inl ⟨(l, q), hc, rfl⟩))
  · intro lid pa g c hmem
    rcases (mem_dispatchEvent proc r e _).mp hmem with h | ⟨lq, _, ht⟩ | ⟨lq, _, ht⟩ | ⟨ht, _⟩
    · exact absurd h (by simp)
    · exact absurd ht (by simp)
    · injection ht with h1 h2 h3 h4
    · exact absurd ht (by simp)

/-- Witness for the amended C5: the `/a` listener's `check` entry for the
event on `/a/b` carries the chain path `/a`, and its `handle` entry carries
the event path `/a/b`. -/
theorem C5_check_path_amended_witness :
    ((["a"] : Path) ∈ matchChain eBelow.path
      ∧ lAncestor ∈ rAncestor.paths ["a"]
      ∧ TraceEntry.checkCall lAncestor.id ["a"] eBelow.guild
          ((fun (c : String) (_ : Attrs) => c) eBelow.content eBelow.attributes)
          (lAncestor.checkFn ["a"] eBelow.guild
            ((fun (c : String) (_ : Attrs) => c) eBelow.content eBelow.attributes)
            eBelow.attributes)
          ∈ dispatchEvent (fun c _ => c) rAncestor eBelow)
    ∧ (TraceEntry.handleCall 7 ["a", "b"] 0 "m"
          ∈ dispatchEvent (fun c _ => c) rAncestor eBelow
      ∧ (["a", "b"] : Path) = eBelow.path) := by
  have hmem : lAncestor ∈ rAncestor.paths ["a"] := by
    rw [show rAncestor.paths ["a"] = [lAncestor] from rfl]
    exact List.mem_singleton.mpr rfl
  refine ⟨⟨by decide, hmem, ?_⟩, by decide, ?_⟩
  · exact (C5_check_path_amended (fun c _ => c) rAncestor eBelow).2.1 ["a"] (by decide)
      lAncestor hmem
  · exact (C5_check_path_amended (fun c _ => c) rAncestor eBelow).2.2 7 ["a", "b"] 0 "m"
      (by decide)

/-! ## Temporal structure of the dispatch loop -/

theorem mem_tagged_fst (i : Nat) (es : List TraceEntry) (x : Nat × TraceEntry)
    (hx : x ∈ tagged i es) : x.1 = i := by
  obtain ⟨t, _, heq⟩ := List.mem_map.mp hx
  rw [← heq]

theorem map_snd_tagged (i : Nat) (es : List TraceEntry) :
    (tagged i es).map Prod.snd = es := by
  rw [tagged, List.map_map]
  exact List.map_id es

theorem mem_handleEventsFrom_ge (proc : String → Attrs → String) (r : Router) :
    ∀ (q : List Event) (k : Nat) (x : Nat × TraceEntry),
      x ∈ handleEventsFrom proc r k q → k ≤ x.1 := by
  intro q
  induction q with
  | nil => intro k x hx; exact absurd hx (List.not_mem_nil x)
  | cons e rest ih =>
      intro k x hx
      rcases List.mem_append.mp hx with hx | hx
      · rw [mem_tagged_fst k _ x hx]
      · exact Nat.le_of_succ_le (ih (k + 1) x hx)

theorem handleEventsFrom_filter (proc : String → Attrs → String) (r : Router) :
    ∀ (q : List Event) (k i : Nat) (h : i < q.length),
      ((handleEventsFrom proc r k q).filter (fun x => x.1 == k + i)).map Prod.snd
        = dispatchEvent proc r (q.get ⟨i, h⟩) := by
  intro q
  induction q with
  | nil => intro k i h; exact absurd h (by simp)
  | cons e rest ih =>
      intro k i h
      rw [handleEventsFrom, List.filter_append]
      cases i with
      | zero =>
          rw [List.filter_eq_self.mpr (fun x hx => by
            rw [mem_tagged_fst k _ x hx]; simp)]
          rw [List.filter_eq_nil_iff.mpr (fun x hx => by
            have := mem_handleEventsFrom_ge proc r rest (k + 1) x hx
            simp only [beq_iff_eq]
            omega)]
          rw [List.append_nil, map_snd_tagged]
          rfl
      | succ j =>
          rw [List.filter_eq_nil_iff.mpr (fun x hx => by
            rw [mem_tagged_fst k _ x hx]
            simp only [beq_iff_eq]
            omega)]
          rw [List.nil_append]
          have harith : k + (j + 1) = (k + 1) + j := by omega
          rw [harith, ih (k + 1) j (Nat.lt_of_succ_lt_succ h)]
          rfl

/-- Claim C4: a handler failure during one event's fan-out is caught and
logged inside the loop: every other matched listener of the same event
still receives its `handle` call, the `except` block logs the failure, and
the loop goes on to dispatch the remaining queued events. -/
theorem C4_failure_isolation (proc : String → Attrs → String) (r : Router)
    (e : Event) (rest : List Event) (a b : Listener) (pa pb : Path)
    (ha : (a, pa) ∈ matchedListeners r e (proc e.content e.attributes))
    (hfail : a.handleFails = true)
    (hb : (b, pb) ∈ matchedListeners r e (proc e.content e.attributes)) :
    TraceEntry.handleCall b.id e.path e.guild (proc e.content e.attributes)
        ∈ dispatchEvent proc r e
    ∧ TraceEntry.logError ∈ dispatchEvent proc r e
    ∧ handleEvents proc r (e :: rest)
        = tagged 0 (dispatchEvent proc r e) ++ handleEventsFrom proc r 1 rest := by
  refine ⟨?_, ?_, rfl⟩
  · exact (mem_dispatchEvent proc r e _).mpr (Or.inr (Or.inr (Or.inl ⟨(b, pb), hb, rfl⟩)))
  · have hany : (matchedListeners r e (proc e.content e.attributes)).any
        (fun lq => lq.1.handleFails) = true :=
      List.any_eq_true.mpr ⟨(a, pa), ha, hfail⟩
    exact (mem_dispatchEvent proc r e _).mpr (Or.inr (Or.inr (Or.inr ⟨rfl, hany⟩)))

/-- Witness for C4: on `/x` the failing listener does not stop the second
listener's handler, and the failure is logged. -/
theorem C4_failure_isolation_witness :
    ((lFail, (["x"] : Path)) ∈ matchedListeners rTwo eX
          ((fun (c : String) (_ : Attrs) => c) eX.content eX.attributes)
      ∧ lFail.handleFails = true
      ∧ (lOk, (["x"] : Path)) ∈ matchedListeners rTwo eX
          ((fun (c : String) (_ : Attrs) => c) eX.content eX.attributes))
    ∧ TraceEntry.handleCall lOk.id eX.path eX.guild
        ((fun (c : String) (_ : Attrs) => c) eX.content eX.attributes)
        ∈ dispatchEvent (fun c _ => c) rTwo eX
    ∧ TraceEntry.logError ∈ dispatchEvent (fun c _ => c) rTwo eX := by
  have hred : matchedListeners rTwo eX
      ((fun (c : String) (_ : Attrs) => c) eX.content eX.attributes)
      = [(lFail, ["x"]), (lOk, ["x"])] := rfl
  have ha : (lFail, (["x"] : Path)) ∈ matchedListeners rTwo eX
      ((fun (c : String) (_ : Attrs) => c) eX.content eX.attributes) := by
    rw [hred]; exact List.mem_cons_self _ _
  have hb : (lOk, (["x"] : Path)) ∈ matchedListeners rTwo eX
      ((fun (c : String) (_ : Attrs) => c) eX.content eX.attributes) := by
    rw [hred]; exact List.mem_cons_of_mem _ (List.mem_cons_self _ _)
  have hmain := C4_failure_isolation (fun c _ => c) rTwo eX [] lFail lOk ["x"] ["x"]
    ha rfl hb
  exact ⟨⟨ha, rfl, hb⟩, hmain.1, hmain.2.1⟩

/-! ## At-most-once handler invocation -/

theorem countHandle_dispatch (proc : String → Attrs → String) (r : Router)
    (e : Event) (i : Nat) :
    countHandle i (dispatchEvent proc r e)
      = ((matchedListeners r e (proc e.content e.attributes)).filter
          (fun lq => lq.1.id == i)).length := by
  rw [countHandle, dispatchEvent]
  rw [List.filter_cons_of_neg (by simp [isHandleOf])]
  rw [List.filter_append, List.filter_append]
  have hA : ((candidates r e.path).map (fun lq =>
      TraceEntry.checkCall lq.1.id lq.2 e.guild (proc e.content e.attributes)
        (lq.1.checkFn lq.2 e.guild (proc e.content e.attributes) e.attributes))).filter
      (isHandleOf i) = [] :=
    List.filter_eq_nil_iff.mpr (fun t ht => by
      obtain ⟨lq, _, heq⟩ := List.mem_map.mp ht
      rw [← heq]; simp [isHandleOf])
  have hC : ((if (matchedListeners r e (proc e.content e.attributes)).any
      (fun lq => lq.1.handleFails) = true
      then [TraceEntry.logError] else []) : List TraceEntry).filter (isHandleOf i) = [] :=
    List.filter_eq_nil_iff.mpr (fun t ht => by
      by_cases hfail : (matchedListeners r e (proc e.content e.attributes)).any
          (fun lq => lq.1.handleFails) = true
      · rw [if_pos hfail] at ht
        rw [List.mem_singleton.mp ht]
        simp [isHandleOf]
      · rw [if_neg hfail] at ht
        exact absurd ht (List.not_mem_nil t))
  rw [hA, hC, List.nil_append, List.append_nil, List.filter_map, List.length_map]
  rfl

theorem filter_id_length_le_one {α : Type} (f : α → Nat) (i : Nat) :
    ∀ l : List α, (l.map f).Nodup → (l.filter (fun x => f x == i)).length ≤ 1 := by
  intro l
  induction l with
  | nil => intro _; exact Nat.zero_le 1
  | cons x rest ih =>
      intro hn
      rw [List.map_cons, List.nodup_cons] at hn
      by_cases hx : f x = i
      · rw [List.filter_cons_of_pos (by simpa using hx)]
        rw [List.filter_eq_nil_iff.mpr (fun y hy => by
          simp only [beq_iff_eq]
          intro hyi
          exact hn.1 (List.mem_map.mpr ⟨y, hy, by rw [hyi, hx]⟩))]
        exact Nat.le_refl 1
      · rw [List.filter_cons_of_neg (by simpa using hx)]
        exact ih hn.2

/-- Claim C8: when every listener object examined for an event appears only
once across the examined buckets, its handler is invoked at most once for
that event; and the handler invocations attributed to each queued event are
exactly those of its own dispatch — nothing collected for one event is
re-invoked while processing a later one, even after a failing fan-out. -/
theorem C8_handle_at_most_once (proc : String → Attrs → String) (r : Router)
    (e : Event) (q : List Event) (i : Nat)
    (hn : ((candidates r e.path).map (fun lq => lq.1.id)).Nodup) :
    countHandle i (dispatchEvent proc r e) ≤ 1
    ∧ ∀ j (h : j < q.length),
        countHandle i (((handleEvents proc r q).filter (fun x => x.1 == j)).map Prod.snd)
          = countHandle i (dispatchEvent proc r (q.get ⟨j, h⟩)) := by
  constructor
  · rw [countHandle_dispatch]
    have hsub : (matchedListeners r e (proc e.content e.attributes)).filter
        (fun lq => lq.1.id == i)
        |>.Sublist ((candidates r e.path).filter (fun lq => lq.1.id == i)) :=
      List.Sublist.filter _ (List.filter_sublist _)
    exact Nat.le_trans hsub.length_le
      (filter_id_length_le_one (fun lq => lq.1.id) i (candidates r e.path) hn)
  · intro j h
    have hfil := handleEventsFrom_filter proc r q 0 j h
    rw [Nat.zero_add] at hfil
    rw [handleEvents, hfil]

/-- Witness for C8: with the two distinct `/x` listeners, each handler runs
exactly at most once for the event on `/x`, and the single queued event's
handle count matches its own dispatch. -/
theorem C8_handle_at_most_once_witness :
    ((candidates rTwo eX.path).map (fun lq => lq.1.id)).Nodup
    ∧ countHandle 1 (dispatchEvent (fun c _ => c) rTwo eX) ≤ 1
    ∧ (0 < ([eX] : List Event).length
      ∧ countHandle 1 (((handleEvents (fun c _ => c) rTwo [eX]).filter
            (fun x => x.1 == 0)).map Prod.snd)
          = countHandle 1 (dispatchEvent (fun c _ => c) rTwo
              (([eX] : List Event).get ⟨0, by decide⟩))) := by
  have hn : ((candidates rTwo eX.path).map (fun lq => lq.1.id)).Nodup := by
    rw [show (candidates rTwo eX.path).map (fun lq => lq.1.id) = [1, 2] from rfl]
    decide
  have hmain := C8_handle_at_most_once (fun c _ => c) rTwo eX [eX] 1 hn
  exact ⟨hn, hmain.1, by decide, hmain.2 0 (by decide)⟩

/-! ## FIFO ordering under the cooperative scheduler -/

theorem stepTasks_no_fail (ts : List HandlerTask) (h : ∀ t ∈ ts, t.fails = false) :
    (stepTasks ts).2.2 = false ∧ ∀ t ∈ (stepTasks ts).2.1, t.fails = false := by
  induction ts with
  | nil => exact ⟨rfl, by simp [stepTasks]⟩
  | cons t ts ih =>
      have ht : t.fails = false := h t (List.mem_cons_self t ts)
      have hts := ih (fun u hu => h u (List.mem_cons_of_mem t hu))
      by_cases hr : t.remaining ≤ 1
      · rw [stepTasks, if_pos hr]
        exact ⟨by rw [ht, hts.1]; rfl, hts.2⟩
      · rw [stepTasks, if_neg hr]
        refine ⟨hts.1, ?_⟩
        intro u hu
        rcases List.mem_cons.mp hu with hu | hu
        · rw [hu]; exact ht
        · exact hts.2 u hu

theorem gatherRounds_no_fail :
    ∀ (fuel : Nat) (fan : List HandlerTask), (∀ t ∈ fan, t.fails = false) →
      (gatherRounds fuel fan []).2.1 = [] ∧ (gatherRounds fuel fan []).2.2 = false := by
  intro fuel
  induction fuel with
  | zero => intro fan _; exact ⟨rfl, rfl⟩
  | succ fuel ih =>
      intro fan hfan
      cases fan with
      | nil => exact ⟨rfl, rfl⟩
      | cons t ts =>
          have hs := stepTasks_no_fail (t :: ts) hfan
          rw [gatherRounds, if_neg (by rw [hs.1]; exact Bool.false_ne_true)]
          have hnxt := ih (stepTasks (t :: ts)).2.1 hs.2
          rw [show (stepTasks ([] : List HandlerTask)).2.1 = [] from rfl]
          exact hnxt

theorem mkTasks_no_fail (ticks : Nat → Nat) (r : Router) (e : Event) (content : String)
    (hnf : ∀ p, ∀ l ∈ r.paths p, l.handleFails = false) :
    ∀ t ∈ mkTasks ticks (matchedListeners r e content), t.fails = false := by
  intro t ht
  obtain ⟨lq, hlq, heq⟩ := List.mem_map.mp ht
  obtain ⟨l', q'⟩ := lq
  have hc : (l', q') ∈ candidates r e.path := (List.mem_filter.mp hlq).1
  obtain ⟨_, hl'⟩ := (candidates_mem r e.path l' q').mp hc
  rw [← heq]
  exact hnf q' l' hl'

theorem dispatchSched_eq_spec (proc : String → Attrs → String) (ticks : Nat → Nat)
    (r : Router) (hnf : ∀ p, ∀ l ∈ r.paths p, l.handleFails = false) :
    ∀ (q : List Event) (idx : Nat),
      dispatchSched proc ticks r idx [] q = specSequentialRun proc ticks r idx q := by
  intro q
  induction q with
  | nil => intro idx; rfl
  | cons e rest ih =>
      intro idx
      rw [dispatchSched, specSequentialRun, eventSegment]
      have hfan := mkTasks_no_fail ticks r e (proc e.content e.attributes) hnf
      have hg := gatherRounds_no_fail
        (maxRemaining (mkTasks ticks (matchedListeners r e (proc e.content e.attributes))))
        (mkTasks ticks (matchedListeners r e (proc e.content e.attributes))) hfan
      rw [hg.1, hg.2, ih (idx + 1)]
      simp [List.append_assoc]

theorem stepTasks_entries_finish (ts : List HandlerTask) (x : SchedEntry)
    (hx : x ∈ (stepTasks ts).1) : processIdx x = none := by
  induction ts with
  | nil => exact absurd hx (List.not_mem_nil x)
  | cons t ts ih =>
      by_cases hr : t.remaining ≤ 1
      · rw [stepTasks, if_pos hr] at hx
        rcases List.mem_cons.mp hx with hx | hx
        · rw [hx]; rfl
        · exact ih hx
      · rw [stepTasks, if_neg hr] at hx
        exact ih hx

theorem gatherRounds_entries_finish :
    ∀ (fuel : Nat) (fan bg : List HandlerTask) (x : SchedEntry),
      x ∈ (gatherRounds fuel fan bg).1 → processIdx x = none := by
  intro fuel
  induction fuel with
  | zero => intro fan bg x hx; exact absurd hx (List.not_mem_nil x)
  | succ fuel ih =>
      intro fan bg x hx
      cases fan with
      | nil => exact absurd hx (List.not_mem_nil x)
      | cons t ts =>
          rw [gatherRounds] at hx
          by_cases hfail : (stepTasks (t :: ts)).2.2 = true
          · rw [if_pos hfail] at hx
            rcases List.mem_append.mp hx with hx | hx
            · exact stepTasks_entries_finish _ x hx
            · exact stepTasks_entries_finish _ x hx
          · rw [if_neg hfail] at hx
            rcases List.mem_append.mp hx with hx | hx
            · rcases List.mem_append.mp hx with hx | hx
              · exact stepTasks_entries_finish _ x hx
              · exact stepTasks_entries_finish _ x hx
            · exact ih _ _ x hx

theorem drain_entries_finish :
    ∀ (fuel : Nat) (ts : List HandlerTask) (x : SchedEntry),
      x ∈ drain fuel ts → processIdx x = none := by
  intro fuel
  induction fuel with
  | zero => intro ts x hx; exact absurd hx (List.not_mem_nil x)
  | succ fuel ih =>
      intro ts x hx
      cases ts with
      | nil => exact absurd hx (List.not_mem_nil x)
      | cons t ts =>
          rw [drain] at hx
          rcases List.mem_append.mp hx with hx | hx
          · exact stepTasks_entries_finish _ x hx
          · exact ih _ x hx

theorem dispatchSched_processIdx (proc : String → Attrs → String) (ticks : Nat → Nat)
    (r : Router) :
    ∀ (q : List Event) (idx : Nat) (bg : List HandlerTask),
      (dispatchSched proc ticks r idx bg q).filterMap processIdx
        = List.range' idx q.length := by
  intro q
  induction q with
  | nil =>
      intro idx bg
      rw [dispatchSched]
      rw [List.filterMap_eq_nil_iff.mpr (fun a ha => drain_entries_finish _ _ a ha)]
      rfl
  | cons e rest ih =>
      intro idx bg
      rw [dispatchSched, List.filterMap_cons]
      rw [show processIdx (SchedEntry.process idx e.content (proc e.content e.attributes))
        = some idx from rfl]
      rw [List.filterMap_append, List.filterMap_append, List.filterMap_append]
      rw [List.filterMap_eq_nil_iff.mpr (fun a ha => by
        obtain ⟨t, _, heq⟩ := List.mem_map.mp ha
        rw [← heq]; rfl)]
      rw [List.filterMap_eq_nil_iff.mpr (fun a ha => gatherRounds_entries_finish _ _ _ a ha)]
      rw [List.filterMap_eq_nil_iff.mpr (fun a ha => by
        by_cases hfail : (gatherRounds
            (maxRemaining (mkTasks ticks (matchedListeners r e (proc e.content e.attributes))))
            (mkTasks ticks (matchedListeners r e (proc e.content e.attributes))) bg).2.2 = true
        · rw [if_pos hfail] at ha
          rw [List.mem_singleton.mp ha]; rfl
        · rw [if_neg hfail] at ha
          exact absurd ha (List.not_mem_nil a))]
      rw [ih (idx + 1)]
      rw [List.length_cons, List.range'_succ]
      rfl

/-- Counterexample to C3: under the scheduler-level model of
`asyncio.gather` — which resolves at the first raised exception without
cancelling the remaining handler tasks — listener 2, invoked for the first
event on `/x`, is still unfinished when the second event's content is
transformed and its handler started and finished; its completion appears
only after the second event's processing.  So a later event does begin
processing before every handler invoked for a previous event has finished
when that previous fan-out failed. -/
theorem C3_counterexample :
    runSched (fun c _ => c) ticksCex rCex [eX, eY]
      = [SchedEntry.process 0 "c" "c", SchedEntry.handleStart 0 1,
         SchedEntry.handleStart 0 2, SchedEntry.handleFinish 1 false,
         SchedEntry.logError 0, SchedEntry.process 1 "n" "n",
         SchedEntry.handleStart 1 3, SchedEntry.handleFinish 3 true,
         SchedEntry.handleFinish 2 true]
    ∧ SchedEntry.handleStart 0 2 ∈ (runSched (fun c _ => c) ticksCex rCex [eX, eY]).take 3
    ∧ (runSched (fun c _ => c) ticksCex rCex [eX, eY]).get? 5
        = some (SchedEntry.process 1 "n" "n")
    ∧ (runSched (fun c _ => c) ticksCex rCex [eX, eY]).get? 6
        = some (SchedEntry.handleStart 1 3)
    ∧ SchedEntry.handleFinish 2 true ∉ (runSched (fun c _ => c) ticksCex rCex [eX, eY]).take 8
    ∧ SchedEntry.handleFinish 2 false ∉ runSched (fun c _ => c) ticksCex rCex [eX, eY] := by
  decide

/-- Claim C3 as amended: events are dequeued and their content transformed
in strict FIFO enqueue order; when no registered handler raises, no event
begins processing until every handler invoked for the previous event has
finished — the run coincides with the fully sequential per-event
composition.  (When a handler raises, the gather await resumes at the
first failure, and the failed fan-out's unfinished handlers may still be
running while later events are processed.) -/
theorem C3_fifo_amended (proc : String → Attrs → String) (ticks : Nat → Nat)
    (r : Router) (q : List Event) :
    (runSched proc ticks r q).filterMap processIdx = List.range q.length
    ∧ ((∀ p, ∀ l ∈ r.paths p, l.handleFails = false) →
        runSched proc ticks r q = specSequentialRun proc ticks r 0 q) := by
  constructor
  · rw [runSched, dispatchSched_processIdx, List.range_eq_range']
  · intro hnf
    exact dispatchSched_eq_spec proc ticks r hnf q 0

/-- Witness for the amended C3: a registry with no failing handler, where
the scheduled run equals the sequential per-event composition. -/
theorem C3_fifo_amended_witness :
    (∀ p, ∀ l ∈ rAncestor.paths p, l.handleFails = false)
    ∧ runSched (fun c _ => c) (fun _ => 0) rAncestor [eBelow, eX]
        = specSequentialRun (fun c _ => c) (fun _ => 0) rAncestor 0 [eBelow, eX] := by
  have hnf : ∀ p, ∀ l ∈ rAncestor.paths p, l.handleFails = false := by
    intro p l hl
    by_cases hp : p = lAncestor.path
    · have hb : rAncestor.paths p = [lAncestor] := by
        show (if p = lAncestor.path then Router.new.paths p ++ [lAncestor]
          else Router.new.paths p) = [lAncestor]
        rw [if_pos hp]; rfl
      rw [hb] at hl
      rw [List.mem_singleton.mp hl]
      rfl
    · have hb : rAncestor.paths p = [] := by
        show (if p = lAncestor.path then Router.new.paths p ++ [lAncestor]
          else Router.new.paths p) = []
        rw [if_neg hp]; rfl
      rw [hb] at hl
      exact absurd hl (List.not_mem_nil l)
  exact ⟨hnf, (C3_fifo_amended (fun c _ => c) (fun _ => 0) rAncestor [eBelow, eX]).2 hnf⟩

end Futaba
